import Mathlib

/-!
Shallow embedding of the nova-core GPU driver fragment:
timer read / wait primitive (drivers/gpu/nova-core/timer.rs),
chipset catalog (drivers/gpu/nova-core/gpu.rs),
and the firmware .modinfo builder (rust/kernel/firmware.rs,
drivers/gpu/nova-core/firmware.rs).

Machine integers are modelled as `Nat`; u32/u64 bounds are made explicit
where overflow matters. Hardware register reads are injected as traces
(lists of readings). Fallible const evaluation (build errors,
out-of-bounds indexing) is modelled with `Option`.
-/

namespace Nova

/-- Error codes used by the driver fragment (kernel errno values). -/
inductive Errno where
  | ENODEV
  | ETIMEDOUT
  | ENXIO
deriving DecidableEq, Repr

/-- `u64::from_u32s` from rust/kernel/num.rs:
`((high as u64) << u32::BITS) | low as u64`. The inputs are `u32`
readings, so they are reduced mod 2^32 as the Rust types guarantee. -/
def fromU32s (high low : Nat) : Nat :=
  ((high % 2 ^ 32) <<< 32) ||| (low % 2 ^ 32)

/-! ## Timer::read (drivers/gpu/nova-core/timer.rs, lines 20-29)

Each MMIO read of PTIMER_TIME_1 / PTIMER_TIME_0 consumes the next element
of an injected trace of `u32` register readings. One loop iteration reads
hi, then lo, then hi again; on agreement of the two hi reads it returns
`from_u32s hi lo`, otherwise the loop restarts on the remaining trace.
`none` means the trace was exhausted before a consistent window occurred. -/
def timerRead : List Nat → Option Nat
  | h1 :: l :: h2 :: rest =>
    if h1 = h2 then some (fromU32s h1 l) else timerRead rest
  | _ => none

/-! ## Timer::wait_on (drivers/gpu/nova-core/timer.rs, lines 45-90)

The condition is modelled as the sequence of results of its successive
evaluations (`cond i` is what the i-th call to `cond()` returns).
The timer readings consumed by the loop's `Timer::read` calls are an
injected trace of already-assembled u64 values; the first element is the
initial read used to compute the deadline. `none` means the trace was
exhausted while the loop was still running. -/

/-- `MAX_STALLED_READS` from timer.rs line 53. -/
def MAX_STALLED_READS : Nat := 16

/-- Largest `u64` value. -/
def U64MAX : Nat := 2 ^ 64 - 1

/-- `cur_time.saturating_add(u64::try_from(timeout.as_nanos()).unwrap_or(u64::MAX))`
(timer.rs lines 57-58): the timeout in nanoseconds is converted to `u64`,
falling back to `u64::MAX` when it does not fit, and added to the initial
reading, saturating at `u64::MAX`. -/
def computeDeadline (curTime timeoutNs : Nat) : Nat :=
  min (curTime + (if timeoutNs ≤ U64MAX then timeoutNs else U64MAX)) U64MAX

/-- The `loop` of `wait_on`: state is the remaining read trace, the index
of the next condition evaluation, `prev_time`, the deadline, and
`num_reads`. -/
def waitOnLoop {R : Type} (cond : Nat → Option R) :
    List Nat → Nat → Nat → Nat → Nat → Option (Except Errno R)
  | [], i, _, _, _ =>
    match cond i with
    | some r => some (.ok r)
    | none => none
  | curTime :: rest, i, prevTime, deadline, numReads =>
    match cond i with
    | some r => some (.ok r)
    | none =>
      if curTime = prevTime then
        if numReads ≥ MAX_STALLED_READS then
          some (.error .ETIMEDOUT)
        else
          waitOnLoop cond rest (i + 1) prevTime deadline (numReads + 1)
      else
        if curTime ≥ deadline then
          some (.error .ETIMEDOUT)
        else
          waitOnLoop cond rest (i + 1) curTime deadline 0

/-- `Timer::wait_on`: the first trace element is the initial
`Timer::read`; then the loop runs. -/
def waitOn {R : Type} (cond : Nat → Option R) (timeoutNs : Nat) :
    List Nat → Option (Except Errno R)
  | [] => none
  | t0 :: rest =>
    waitOnLoop cond rest 0 t0 (computeDeadline t0 timeoutNs) 0

/-- A condition that never evaluates to `Some`. -/
def condNever : Nat → Option Unit := fun _ => none

/-! ## Chipset catalog (drivers/gpu/nova-core/gpu.rs) -/

/-- Byte string of an ASCII Lean string literal. -/
def ascii (s : String) : List Nat :=
  s.toList.map Char.toNat

/-- The `Chipset` enum produced by `define_chipset!` (gpu.rs lines 53-72). -/
inductive Chipset where
  | TU102 | TU104 | TU106 | TU117 | TU116
  | GA102 | GA103 | GA104 | GA106 | GA107
  | AD102 | AD103 | AD104 | AD106 | AD107
deriving DecidableEq, Repr

/-- `Chipset::ALL` in catalog (declaration) order. -/
def Chipset.ALL : List Chipset :=
  [.TU102, .TU104, .TU106, .TU117, .TU116,
   .GA102, .GA103, .GA104, .GA106, .GA107,
   .AD102, .AD103, .AD104, .AD106, .AD107]

/-- The enum discriminant of each variant (gpu.rs lines 55-71). -/
def Chipset.id : Chipset → Nat
  | .TU102 => 0x162
  | .TU104 => 0x164
  | .TU106 => 0x166
  | .TU117 => 0x167
  | .TU116 => 0x168
  | .GA102 => 0x172
  | .GA103 => 0x173
  | .GA104 => 0x174
  | .GA106 => 0x176
  | .GA107 => 0x177
  | .AD102 => 0x192
  | .AD103 => 0x193
  | .AD104 => 0x194
  | .AD106 => 0x196
  | .AD107 => 0x197

/-- `stringify!($variant)`: the declared identifier of each variant,
as an ASCII byte string. This is also what `derive(fmt::Debug)` prints,
and hence what the `Display` impl (gpu.rs lines 98-102) produces. -/
def Chipset.declaredName : Chipset → List Nat
  | .TU102 => ascii "TU102"
  | .TU104 => ascii "TU104"
  | .TU106 => ascii "TU106"
  | .TU117 => ascii "TU117"
  | .TU116 => ascii "TU116"
  | .GA102 => ascii "GA102"
  | .GA103 => ascii "GA103"
  | .GA104 => ascii "GA104"
  | .GA106 => ascii "GA106"
  | .GA107 => ascii "GA107"
  | .AD102 => ascii "AD102"
  | .AD103 => ascii "AD103"
  | .AD104 => ascii "AD104"
  | .AD106 => ascii "AD106"
  | .AD107 => ascii "AD107"

/-- `char::to_ascii_lowercase` on a byte value: `A..=Z` maps to the
lowercase counterpart, everything else is unchanged. -/
def charToAsciiLowercase (b : Nat) : Nat :=
  if 65 ≤ b ∧ b ≤ 90 then b + 32 else b

/-- `to_lowercase_bytes::<N>(s)` (gpu.rs lines 15-26): a `[0; N]` array
whose first `min (s.len) N` bytes are the lowercased source bytes;
the remainder stays zero. -/
def to_lowercase_bytes (N : Nat) (s : List Nat) : List Nat :=
  (s.take N).map charToAsciiLowercase ++ List.replicate (N - s.length) 0

/-- `Chipset::NAMES` entry of a variant (gpu.rs lines 42-48):
`to_lowercase_bytes::<{ stringify!($variant).len() }>(stringify!($variant))`. -/
def Chipset.name (c : Chipset) : List Nat :=
  to_lowercase_bytes c.declaredName.length c.declaredName

/-- `TryFrom<u32> for Chipset` (gpu.rs lines 105-128): look the raw ID up
against the catalog, `ENODEV` for anything else. -/
def Chipset.tryFrom (value : Nat) : Except Errno Chipset :=
  if value = 0x162 then .ok .TU102
  else if value = 0x164 then .ok .TU104
  else if value = 0x166 then .ok .TU106
  else if value = 0x167 then .ok .TU117
  else if value = 0x168 then .ok .TU116
  else if value = 0x172 then .ok .GA102
  else if value = 0x173 then .ok .GA103
  else if value = 0x174 then .ok .GA104
  else if value = 0x176 then .ok .GA106
  else if value = 0x177 then .ok .GA107
  else if value = 0x192 then .ok .AD102
  else if value = 0x193 then .ok .AD103
  else if value = 0x194 then .ok .AD104
  else if value = 0x196 then .ok .AD106
  else if value = 0x197 then .ok .AD107
  else .error .ENODEV

/-- `str::make_ascii_lowercase`: every byte mapped through the ASCII
lowercase conversion. -/
def makeAsciiLowercase (s : List Nat) : List Nat :=
  s.map charToAsciiLowercase

/-- The chipset name used at runtime by `Firmware::new`
(gpu.rs lines 187-189): format the chipset through `Display` (which
prints the declared variant name), then `make_ascii_lowercase`. -/
def Chipset.runtimeName (c : Chipset) : List Nat :=
  makeAsciiLowercase c.declaredName

/-! ## ModInfoBuilder (rust/kernel/firmware.rs, lines 206-294)

`const` evaluation failures (`build_error!`, out-of-bounds array
indexing) are modelled as `none`. Alongside the updated builder, every
operation returns the list of buffer indices it wrote, so that
in-bounds claims about the writes can be stated. -/

/-- `ModInfoBuilder<N>`: `cap` is the const generic `N`, `buf` the
`[u8; N]` array, `n` the occupied-length counter, `module_name` the
module name bytes (a `CStr`, without its trailing NUL). -/
structure ModInfoBuilder where
  cap : Nat
  buf : List Nat
  n : Nat
  module_name : List Nat
deriving DecidableEq, Repr

namespace ModInfoBuilder

/-- `ModInfoBuilder::new` (firmware.rs lines 214-220). -/
def new (cap : Nat) (module_name : List Nat) : ModInfoBuilder :=
  ⟨cap, List.replicate cap 0, 0, module_name⟩

/-- The `while` loop of `push_internal` (firmware.rs lines 230-236),
run when `N != 0`: each source byte is written at index `n` when
`n < N`, and `n` always advances. Returns the updated buffer, the new
counter, and the indices written. -/
def pushLoop (cap : Nat) : List Nat → Nat → List Nat → List Nat × Nat × List Nat
  | buf, n, [] => (buf, n, [])
  | buf, n, c :: cs =>
    if n < cap then
      let r := pushLoop cap (buf.set n c) (n + 1) cs
      (r.1, r.2.1, n :: r.2.2)
    else
      pushLoop cap buf (n + 1) cs

/-- `ModInfoBuilder::push_internal` (firmware.rs lines 222-238). -/
def push_internal (b : ModInfoBuilder) (bytes : List Nat) :
    ModInfoBuilder × List Nat :=
  if b.cap = 0 then
    ({ b with n := b.n + bytes.length }, [])
  else
    let r := pushLoop b.cap b.buf b.n bytes
    ({ b with buf := r.1, n := r.2.1 }, r.2.2)

/-- `ModInfoBuilder::push` (firmware.rs lines 244-250):
`build_error!` when `N != 0` and nothing was prepared yet. -/
def push (b : ModInfoBuilder) (bytes : List Nat) :
    Option (ModInfoBuilder × List Nat) :=
  if b.cap ≠ 0 ∧ b.n = 0 then none
  else some (push_internal b bytes)

/-- A single Rust array-element assignment `buf[i] = v`: in `const`
context an out-of-bounds index is a compile-time failure. -/
def bufWrite (buf : List Nat) (i v : Nat) : Option (List Nat) :=
  if i < buf.length then some (buf.set i v) else none

/-- The module-name block of `prepare_module_name` (firmware.rs lines
256-263): when the module name is non-empty, push it together with its
NUL terminator, and for `N != 0` overwrite the terminator's slot at
index `n - 1` with `b'.'` (byte 46) by a *direct, unguarded* array
assignment. -/
def prepareModuleNameStep (b : ModInfoBuilder) : Option (ModInfoBuilder × List Nat) :=
  if b.module_name.isEmpty then some (b, ([] : List Nat))
  else
    let r := push_internal b (b.module_name ++ [0])
    if r.1.cap ≠ 0 then
      match bufWrite r.1.buf (r.1.n - 1) 46 with
      | some buf2 => some ({ r.1 with buf := buf2 }, r.2 ++ [r.1.n - 1])
      | none => none
    else some r

/-- `ModInfoBuilder::prepare_module_name` (firmware.rs lines 252-266):
the module-name block followed by pushing `"firmware="`. -/
def prepare_module_name (b : ModInfoBuilder) : Option (ModInfoBuilder × List Nat) :=
  match prepareModuleNameStep b with
  | none => none
  | some s =>
    let r2 := push_internal s.1 (ascii "firmware=")
    some (r2.1, s.2 ++ r2.2)

/-- `ModInfoBuilder::prepare` (firmware.rs lines 271-273):
`self.push_internal(b"\0").prepare_module_name()`. -/
def prepare (b : ModInfoBuilder) : Option (ModInfoBuilder × List Nat) :=
  let r := push_internal b [0]
  match prepare_module_name r.1 with
  | none => none
  | some (b2, w2) => some (b2, r.2 ++ w2)

/-- `ModInfoBuilder::build` (firmware.rs lines 276-285): append the
final NUL terminator; the result is the buffer exactly when the counter
matches the declared capacity, otherwise `build_error!`. -/
def build (b : ModInfoBuilder) : Option (List Nat) :=
  let this := (push_internal b [0]).1
  if this.n = this.cap then some this.buf else none

/-- `ModInfoBuilder::<0>::build_length` (firmware.rs lines 288-294):
the sizing pass's final counter plus one, compensating for the NUL
terminator added by `build`. Only defined on sizing builders
(`cap = 0`) in the source. -/
def build_length (b : ModInfoBuilder) : Nat :=
  b.n + 1

end ModInfoBuilder

/-- The public builder operations, as reified actions: the builder API
exposed to drivers is `prepare` and `push`. -/
inductive Op where
  | prepare : Op
  | push : List Nat → Op
deriving DecidableEq, Repr

/-- Run one public operation. -/
def applyOp (b : ModInfoBuilder) : Op → Option (ModInfoBuilder × List Nat)
  | .prepare => b.prepare
  | .push bytes => b.push bytes

/-- Run a sequence of operations from a builder state, accumulating the
write log. -/
def runFrom (b : ModInfoBuilder) : List Op → Option (ModInfoBuilder × List Nat)
  | [] => some (b, [])
  | op :: ops =>
    match applyOp b op with
    | none => none
    | some r =>
      match runFrom r.1 ops with
      | none => none
      | some s => some (s.1, r.2 ++ s.2)

/-- Run a sequence of operations on a fresh `ModInfoBuilder::new`. -/
def runOps (cap : Nat) (module_name : List Nat) (ops : List Op) :
    Option (ModInfoBuilder × List Nat) :=
  runFrom (ModInfoBuilder.new cap module_name) ops

/-- Number of bytes an operation adds to the occupied-length counter:
a push adds its byte count; a prepare adds the separating NUL, the
module name with its terminator (when non-empty), and `"firmware="`. -/
def opLen (module_name : List Nat) : Op → Nat
  | .push bytes => bytes.length
  | .prepare =>
    1 + ((if module_name.isEmpty then 0 else module_name.length + 1) + 9)

/-- Total counter growth of an operation sequence. -/
def opsLen (module_name : List Nat) (ops : List Op) : Nat :=
  (ops.map (opLen module_name)).sum

/-! ## Nova-core driver builder (drivers/gpu/nova-core/firmware.rs) -/

/-- The firmware version pushed by `make_entry_file` (line 10). -/
def NOVA_FW_VERSION : List Nat := ascii "535.113.01"

/-- The operation sequence performed by `make_entry_file`
(drivers/gpu/nova-core/firmware.rs lines 9-23): one `prepare`, then the
path components `"nvidia/" chipset "/gsp/" fw "-" version ".bin"`. -/
def makeEntryFileOps (chipset fw : List Nat) : List Op :=
  [.prepare, .push (ascii "nvidia/"), .push chipset, .push (ascii "/gsp/"),
   .push fw, .push (ascii "-"), .push NOVA_FW_VERSION, .push (ascii ".bin")]

/-- Split a byte string on NUL bytes (used to decode the built
manifest; a trailing NUL yields a final empty piece, a leading NUL a
leading empty piece). -/
def splitOnNul : List Nat → List (List Nat)
  | [] => [[]]
  | c :: rest =>
    if c = 0 then [] :: splitOnNul rest
    else
      match splitOnNul rest with
      | [] => [[c]]
      | p :: ps => (c :: p) :: ps

/-! ## Specification-side definitions used for refinement comparisons -/

/-- The spec's description of name lowercasing (spec section 8): the
declared variant name with every ASCII uppercase letter mapped to its
lowercase counterpart and all other bytes unchanged. -/
def specLowercasedName (c : Chipset) : List Nat :=
  c.declaredName.map (fun b => if 65 ≤ b ∧ b ≤ 90 then b + 32 else b)

instance {ε α : Type} [DecidableEq ε] [DecidableEq α] : DecidableEq (Except ε α) :=
  fun a b =>
    match a, b with
    | .ok x, .ok y =>
      if h : x = y then .isTrue (by rw [h]) else .isFalse (by intro hc; cases hc; exact h rfl)
    | .error x, .error y =>
      if h : x = y then .isTrue (by rw [h]) else .isFalse (by intro hc; cases hc; exact h rfl)
    | .ok _, .error _ => .isFalse (by intro hc; cases hc)
    | .error _, .ok _ => .isFalse (by intro hc; cases hc)

end Nova

namespace Nova

/-! ## Claim theorems -/

/-- C8: for every raw chipset ID in the 15-value catalog,
`TryFrom<u32> for Chipset` returns `Ok` of the matching variant, and for
every value outside that set (equivalently: differing from every
variant's ID) it returns the `ENODEV` error. -/
theorem chipset_identification_complete :
    (∀ c : Chipset, Chipset.tryFrom c.id = .ok c) ∧
    (∀ v : Nat, Chipset.tryFrom v = .error .ENODEV ↔ ∀ c : Chipset, v ≠ c.id) := by
  constructor
  · intro c; cases c <;> rfl
  · intro v
    constructor
    · intro h c hc
      cases c <;> (rw [hc] at h; exact absurd h (by decide))
    · intro hall
      have h1 : v ≠ 354 := hall .TU102
      have h2 : v ≠ 356 := hall .TU104
      have h3 : v ≠ 358 := hall .TU106
      have h4 : v ≠ 359 := hall .TU117
      have h5 : v ≠ 360 := hall .TU116
      have h6 : v ≠ 370 := hall .GA102
      have h7 : v ≠ 371 := hall .GA103
      have h8 : v ≠ 372 := hall .GA104
      have h9 : v ≠ 374 := hall .GA106
      have h10 : v ≠ 375 := hall .GA107
      have h11 : v ≠ 402 := hall .AD102
      have h12 : v ≠ 403 := hall .AD103
      have h13 : v ≠ 404 := hall .AD104
      have h14 : v ≠ 406 := hall .AD106
      have h15 : v ≠ 407 := hall .AD107
      unfold Chipset.tryFrom
      rw [if_neg h1, if_neg h2, if_neg h3, if_neg h4, if_neg h5, if_neg h6,
          if_neg h7, if_neg h8, if_neg h9, if_neg h10, if_neg h11, if_neg h12,
          if_neg h13, if_neg h14, if_neg h15]

/-- C9: for every catalog variant, the compile-time `Chipset::NAMES`
entry equals the declared variant name with every ASCII uppercase letter
lowercased and all other bytes unchanged, and the runtime lowercased
name (`Display` then `make_ascii_lowercase`) equals that same
compile-time name. -/
theorem chipset_names_lowercase_agree :
    ∀ c : Chipset,
      Chipset.name c = specLowercasedName c ∧
      Chipset.runtimeName c = Chipset.name c := by
  intro c
  cases c <;> exact ⟨rfl, rfl⟩

/-- C1 counterexample: with a condition that never yields a value and a
device clock frozen at 5, after the reading has been identical for 16
consecutive polls of the loop (17 identical readings in total, counting
the initial one) `wait_on` has not yet failed: the result is still
undetermined (`none`), not `ETIMEDOUT`; the `ETIMEDOUT` failure only
occurs on the next (17th) unchanged loop poll. -/
theorem wait_on_sixteen_stalled_reads_counterexample :
    waitOn condNever 1000 (List.replicate 17 5) = none ∧
    waitOn condNever 1000 (List.replicate 17 5) ≠
      some (.error Errno.ETIMEDOUT) ∧
    waitOn condNever 1000 (List.replicate 18 5) =
      some (.error Errno.ETIMEDOUT) := by
  decide

/-- Stalled-loop lemma: starting from `prev = v` with `numReads = nr`
and at least `17 - nr` further identical readings available, the wait
loop returns the timeout error (the stall check `num_reads >= 16`
happens before the increment, so `17 - nr` more unchanged reads are
consumed). -/
theorem waitOnLoop_stalled (v deadline : Nat) (rest : List Nat) :
    ∀ (m i nr : Nat), MAX_STALLED_READS + 1 ≤ m + nr → nr ≤ MAX_STALLED_READS →
      waitOnLoop condNever (List.replicate m v ++ rest) i v deadline nr =
        some (.error Errno.ETIMEDOUT) := by
  intro m
  induction m with
  | zero => intro i nr h1 h2; simp [MAX_STALLED_READS] at h1 h2; omega
  | succ m ih =>
    intro i nr h1 h2
    have step : waitOnLoop condNever (v :: (List.replicate m v ++ rest)) i v deadline nr =
        if nr ≥ MAX_STALLED_READS then some (.error Errno.ETIMEDOUT)
        else waitOnLoop condNever (List.replicate m v ++ rest) (i + 1) v deadline (nr + 1) := by
      rw [waitOnLoop]
      simp [condNever]
    rw [List.replicate_succ, List.cons_append, step]
    by_cases hnr : nr ≥ MAX_STALLED_READS
    · rw [if_pos hnr]
    · rw [if_neg hnr]
      exact ih (i + 1) (nr + 1) (by omega) (by omega)

/-- C1 (amended): for a condition that never yields a value, any
timeout, and a device clock frozen at `v`, `wait_on` fails with
`ETIMEDOUT` on the 17th consecutive unchanged loop reading (the 18th
identical reading counting the initial one), regardless of whether the
deadline has been reached. -/
theorem wait_on_stalled_timer_timeout (v timeoutNs : Nat) (rest : List Nat) :
    waitOn condNever timeoutNs (v :: (List.replicate 17 v ++ rest)) =
      some (.error Errno.ETIMEDOUT) := by
  rw [waitOn]
  exact waitOnLoop_stalled v _ rest 17 0 0 (by decide) (by decide)

/-- C6: when the condition's very first evaluation yields `some r`,
`wait_on` returns `Ok r` immediately after the single initial timer
read, for every timeout value (including zero): the condition check
precedes any deadline or stall check in the loop. -/
theorem wait_on_immediate_condition {R : Type} (cond : Nat → Option R) (r : R)
    (timeoutNs t0 : Nat) (rest : List Nat) (h : cond 0 = some r) :
    waitOn cond timeoutNs (t0 :: rest) = some (.ok r) := by
  cases rest with
  | nil => rw [waitOn, waitOnLoop, h]
  | cons a t => rw [waitOn, waitOnLoop, h]

/-- C6 witness: a condition already true on entry succeeds with
timeout 0 and only the initial timer reading available. -/
theorem wait_on_immediate_condition_witness :
    waitOn (fun _ => some 42) 0 [10] = some (.ok 42) :=
  wait_on_immediate_condition (fun _ => some 42) 42 0 10 [] rfl

/-- C2 counterexample: for the single-chipset, single-component manifest
with module name "x", splitting the built buffer on NUL does not produce
the three pieces claimed by the spec: the module-name prefix
"x.firmware=" and the path form one single NUL-delimited entry, and the
buffer begins with a NUL (an empty leading piece). -/
theorem modinfo_single_entry_decode_counterexample :
    (splitOnNul <$> ((runOps 48 (ascii "x")
        (makeEntryFileOps (ascii "tu102") (ascii "gsp"))).bind
          (fun st => st.1.build))) ≠
      some [ascii "x.firmware=",
            ascii "nvidia/tu102/gsp/gsp-535.113.01.bin", ascii ""] := by
  decide

/-- C2 (amended): for every catalog chipset, the single-entry manifest
(module name "x", component "gsp", version 535.113.01) sizes to 48
bytes, and the built buffer, split on NUL, decodes to the pieces
["", "x.firmware=nvidia/(chipset)/gsp/gsp-535.113.01.bin", ""]: the
key-value prefix and the path are one entry, preceded by a leading NUL
and followed by the trailing terminator. -/
theorem modinfo_single_entry_decode :
    ∀ c : Chipset,
      ((runOps 0 (ascii "x")
          (makeEntryFileOps (Chipset.name c) (ascii "gsp"))).map
            (fun st => st.1.build_length)) = some 48 ∧
      (splitOnNul <$> ((runOps 48 (ascii "x")
          (makeEntryFileOps (Chipset.name c) (ascii "gsp"))).bind
            (fun st => st.1.build))) =
        some [ascii "",
              ascii "x.firmware=nvidia/" ++ Chipset.name c ++
                ascii "/gsp/gsp-535.113.01.bin",
              ascii ""] := by
  intro c
  cases c <;> exact ⟨rfl, by decide⟩

/-- Deadline lemma: with a condition that never fires, a strictly
increasing loop-read trace continuing from `prev`, and some reading at
or past the deadline, the wait loop returns the timeout error. -/
theorem waitOnLoop_deadline (deadline : Nat) :
    ∀ (rest : List Nat) (prev i numReads : Nat),
      List.Chain' (· < ·) (prev :: rest) →
      (∃ x ∈ rest, deadline ≤ x) →
      waitOnLoop condNever rest i prev deadline numReads =
        some (.error Errno.ETIMEDOUT) := by
  intro rest
  induction rest with
  | nil => intro prev i nr _ hex; simp at hex
  | cons cur rest ih =>
    intro prev i nr hchain hex
    have hlt : prev < cur := (List.chain'_cons.mp hchain).1
    have hchain2 : List.Chain' (· < ·) (cur :: rest) := (List.chain'_cons.mp hchain).2
    rw [waitOnLoop]
    simp only [condNever]
    rw [if_neg (by omega : ¬ cur = prev)]
    by_cases hd : cur ≥ deadline
    · rw [if_pos hd]
    · rw [if_neg hd]
      refine ih cur (i + 1) 0 hchain2 ?_
      obtain ⟨x, hx, hdx⟩ := hex
      rcases List.mem_cons.mp hx with hxc | hxr
      · subst hxc; omega
      · exact ⟨x, hxr, hdx⟩

/-- C7: the deadline is the initial reading plus the timeout in device
time units (nanoseconds), saturating at the maximum u64 value (never
wrapping); and for a condition that never yields a value, an advancing
(strictly increasing) device clock that reaches a reading at or past
the deadline makes `wait_on` fail with `ETIMEDOUT`. -/
theorem wait_on_deadline_timeout :
    (∀ t0 timeoutNs : Nat,
       computeDeadline t0 timeoutNs ≤ U64MAX ∧
       (t0 + timeoutNs ≤ U64MAX → computeDeadline t0 timeoutNs = t0 + timeoutNs)) ∧
    (∀ (timeoutNs t0 : Nat) (rest : List Nat),
       List.Chain' (· < ·) (t0 :: rest) →
       (∃ x ∈ rest, computeDeadline t0 timeoutNs ≤ x) →
       waitOn condNever timeoutNs (t0 :: rest) =
         some (.error Errno.ETIMEDOUT)) := by
  constructor
  · intro t0 tn
    refine ⟨Nat.min_le_right _ _, fun h => ?_⟩
    have htn : tn ≤ U64MAX := le_trans (Nat.le_add_left _ _) h
    rw [computeDeadline, if_pos htn]
    exact Nat.min_eq_left h
  · intro tn t0 rest hchain hex
    rw [waitOn]
    exact waitOnLoop_deadline _ rest t0 0 0 hchain hex

/-- C7 witness: with initial reading 10 and a 5-nanosecond timeout the
deadline is 15, and the advancing trace 12, 16 triggers the timeout. -/
theorem wait_on_deadline_timeout_witness :
    computeDeadline 10 5 = 10 + 5 ∧
    waitOn condNever 5 [10, 12, 16] = some (.error Errno.ETIMEDOUT) :=
  ⟨(wait_on_deadline_timeout.1 10 5).2 (by decide),
   wait_on_deadline_timeout.2 5 10 [12, 16] (by norm_num [List.chain'_cons]) (by decide)⟩

/-- Auxiliary for C5, by strong induction on the trace length: a
successful `Timer::read` result comes from a window whose two high-half
reads agree, every earlier window having disagreed. -/
theorem timerRead_aux :
    ∀ (n : Nat) (t : List Nat), t.length ≤ n → ∀ v : Nat, timerRead t = some v →
      ∃ k h l rest, t.drop (3 * k) = h :: l :: h :: rest ∧ v = fromU32s h l ∧
        ∀ j, j < k → ∃ a b c r, t.drop (3 * j) = a :: b :: c :: r ∧ a ≠ c := by
  intro n
  induction n with
  | zero =>
    intro t ht v hv
    have hnil : t = [] := List.eq_nil_of_length_eq_zero (Nat.le_zero.mp ht)
    subst hnil
    exact Option.noConfusion hv
  | succ n ih =>
    intro t ht v hv
    obtain _ | ⟨h1, _ | ⟨l, _ | ⟨h2, rest⟩⟩⟩ := t
    · exact Option.noConfusion hv
    · exact Option.noConfusion hv
    · exact Option.noConfusion hv
    · rw [timerRead] at hv
      by_cases heq : h1 = h2
      · rw [if_pos heq] at hv
        refine ⟨0, h1, l, rest, ?_, ?_, ?_⟩
        · rw [Nat.mul_zero, List.drop_zero, heq]
        · exact (Option.some.inj hv).symm
        · intro j hj; omega
      · rw [if_neg heq] at hv
        have hlen : rest.length ≤ n := by
          simp at ht; omega
        obtain ⟨k, h, l2, r2, hdrop, hval, hprev⟩ := ih rest hlen v hv
        refine ⟨k + 1, h, l2, r2, ?_, hval, ?_⟩
        · have h3 : 3 * (k + 1) = 3 + 3 * k := by ring
          rw [h3, ← List.drop_drop]
          exact hdrop
        · intro j hj
          match j with
          | 0 =>
            exact ⟨h1, l, h2, rest, by rw [Nat.mul_zero, List.drop_zero], heq⟩
          | (j2 + 1) =>
            obtain ⟨a, b, c, r, hd, hne⟩ := hprev j2 (by omega)
            refine ⟨a, b, c, r, ?_, hne⟩
            have h3 : 3 * (j2 + 1) = 3 + 3 * j2 := by ring
            rw [h3, ← List.drop_drop]
            exact hd

/-- C5: whenever `Timer::read` returns a value from an injected trace
of hardware register readings, the value is the combination
`(high << 32) | low` of a window whose surrounding high-half reads are
equal, and every earlier three-read window was torn (its two high-half
reads disagreed) and was retried rather than returned. -/
theorem timer_read_consistent_window (t : List Nat) (v : Nat)
    (hv : timerRead t = some v) :
    ∃ k h l rest, t.drop (3 * k) = h :: l :: h :: rest ∧ v = fromU32s h l ∧
      ∀ j, j < k → ∃ a b c r, t.drop (3 * j) = a :: b :: c :: r ∧ a ≠ c :=
  timerRead_aux t.length t le_rfl v hv

/-- The push loop leaves the buffer length unchanged. -/
theorem pushLoop_len (cap : Nat) :
    ∀ (bytes buf : List Nat) (n : Nat),
      (ModInfoBuilder.pushLoop cap buf n bytes).1.length = buf.length := by
  intro bytes
  induction bytes with
  | nil => intro buf n; rfl
  | cons c cs ih =>
    intro buf n
    rw [ModInfoBuilder.pushLoop]
    by_cases h : n < cap
    · rw [if_pos h]
      simpa [List.length_set] using ih (buf.set n c) (n + 1)
    · rw [if_neg h]
      exact ih buf (n + 1)

/-- The push loop advances the counter by exactly the number of source
bytes, regardless of how many writes were clamped. -/
theorem pushLoop_n (cap : Nat) :
    ∀ (bytes buf : List Nat) (n : Nat),
      (ModInfoBuilder.pushLoop cap buf n bytes).2.1 = n + bytes.length := by
  intro bytes
  induction bytes with
  | nil => intro buf n; simp [ModInfoBuilder.pushLoop]
  | cons c cs ih =>
    intro buf n
    rw [ModInfoBuilder.pushLoop]
    by_cases h : n < cap
    · rw [if_pos h]
      have := ih (buf.set n c) (n + 1)
      simp only [this]
      simp; omega
    · rw [if_neg h]
      rw [ih buf (n + 1)]
      simp; omega

/-- Every index the push loop writes is strictly below the capacity. -/
theorem pushLoop_writes (cap : Nat) :
    ∀ (bytes buf : List Nat) (n : Nat),
      ∀ i ∈ (ModInfoBuilder.pushLoop cap buf n bytes).2.2, i < cap := by
  intro bytes
  induction bytes with
  | nil => intro buf n i hi; simp [ModInfoBuilder.pushLoop] at hi
  | cons c cs ih =>
    intro buf n i hi
    rw [ModInfoBuilder.pushLoop] at hi
    by_cases h : n < cap
    · rw [if_pos h] at hi
      simp only [List.mem_cons] at hi
      rcases hi with hi | hi
      · subst hi; exact h
      · exact ih (buf.set n c) (n + 1) i hi
    · rw [if_neg h] at hi
      exact ih buf (n + 1) i hi

/-- `push_internal` preserves the capacity, the module name and the
buffer length, and advances the counter by the number of pushed
bytes. -/
theorem push_internal_spec (b : ModInfoBuilder) (bytes : List Nat) :
    ((b.push_internal bytes).1).cap = b.cap ∧
    ((b.push_internal bytes).1).module_name = b.module_name ∧
    ((b.push_internal bytes).1).n = b.n + bytes.length ∧
    ((b.push_internal bytes).1).buf.length = b.buf.length := by
  rw [ModInfoBuilder.push_internal]
  by_cases h : b.cap = 0
  · rw [if_pos h]
    exact ⟨rfl, rfl, rfl, rfl⟩
  · rw [if_neg h]
    exact ⟨rfl, rfl, pushLoop_n b.cap bytes b.buf b.n, pushLoop_len b.cap bytes b.buf b.n⟩

/-- Every index `push_internal` writes is strictly below the
capacity. -/
theorem push_internal_writes (b : ModInfoBuilder) (bytes : List Nat) :
    ∀ i ∈ (b.push_internal bytes).2, i < b.cap := by
  intro i hi
  rw [ModInfoBuilder.push_internal] at hi
  by_cases h : b.cap = 0
  · rw [if_pos h] at hi
    simp at hi
  · rw [if_neg h] at hi
    exact pushLoop_writes b.cap bytes b.buf b.n i hi

/-- On success, the module-name block preserves capacity, module name
and buffer length, advances the counter by the module name's size (with
terminator) when the name is non-empty, and only writes in bounds. -/
theorem prepareModuleNameStep_spec (b : ModInfoBuilder) (s : ModInfoBuilder × List Nat)
    (h : ModInfoBuilder.prepareModuleNameStep b = some s) :
    s.1.cap = b.cap ∧ s.1.module_name = b.module_name ∧
    s.1.n = b.n + (if b.module_name.isEmpty then 0 else b.module_name.length + 1) ∧
    s.1.buf.length = b.buf.length ∧
    (b.buf.length = b.cap → ∀ i ∈ s.2, i < b.cap) := by
  rw [ModInfoBuilder.prepareModuleNameStep] at h
  by_cases hm : b.module_name.isEmpty
  · rw [if_pos hm] at h
    obtain rfl : (b, ([] : List Nat)) = s := Option.some.inj h
    refine ⟨rfl, rfl, by rw [if_pos hm]; rfl, rfl, fun _ i hi => absurd hi (by simp)⟩
  · rw [if_neg hm] at h
    simp only at h
    have hpi := push_internal_spec b (b.module_name ++ [0])
    by_cases hc : ((b.push_internal (b.module_name ++ [0])).1).cap ≠ 0
    · rw [if_pos hc] at h
      set r := b.push_internal (b.module_name ++ [0]) with hr
      cases hbw : ModInfoBuilder.bufWrite r.1.buf (r.1.n - 1) 46 with
      | none => rw [hbw] at h; exact Option.noConfusion h
      | some buf2 =>
        rw [hbw] at h
        obtain rfl : ({ r.1 with buf := buf2 }, r.2 ++ [r.1.n - 1]) = s := Option.some.inj h
        have hbw2 : buf2 = r.1.buf.set (r.1.n - 1) 46 ∧ r.1.n - 1 < r.1.buf.length := by
          rw [ModInfoBuilder.bufWrite] at hbw
          by_cases hin : r.1.n - 1 < r.1.buf.length
          · rw [if_pos hin] at hbw
            exact ⟨(Option.some.inj hbw).symm, hin⟩
          · rw [if_neg hin] at hbw
            exact Option.noConfusion hbw
        refine ⟨hpi.1, hpi.2.1, ?_, ?_, ?_⟩
        · rw [if_neg hm]
          have := hpi.2.2.1
          simp only [List.length_append, List.length_singleton] at this
          simpa using this
        · rw [hbw2.1]
          simp only [List.length_set]
          exact hpi.2.2.2
        · intro hbl i hi
          simp only [List.mem_append, List.mem_singleton] at hi
          rcases hi with hi | hi
          · exact push_internal_writes b (b.module_name ++ [0]) i hi
          · subst hi
            calc r.1.n - 1 < r.1.buf.length := hbw2.2
              _ = b.buf.length := hpi.2.2.2
              _ = b.cap := hbl
    · rw [if_neg hc] at h
      obtain rfl : b.push_internal (b.module_name ++ [0]) = s := Option.some.inj h
      refine ⟨hpi.1, hpi.2.1, ?_, hpi.2.2.2, ?_⟩
      · rw [if_neg hm]
        have := hpi.2.2.1
        simp only [List.length_append, List.length_singleton] at this
        simpa using this
      · intro _ i hi
        exact push_internal_writes b (b.module_name ++ [0]) i hi

/-- On success, `prepare_module_name` preserves capacity, module name
and buffer length, advances the counter by the module-name block plus
the 9 bytes of "firmware=", and only writes in bounds. -/
theorem prepare_module_name_spec (b : ModInfoBuilder) (s : ModInfoBuilder × List Nat)
    (h : b.prepare_module_name = some s) :
    s.1.cap = b.cap ∧ s.1.module_name = b.module_name ∧
    s.1.n = b.n + ((if b.module_name.isEmpty then 0 else b.module_name.length + 1) + 9) ∧
    s.1.buf.length = b.buf.length ∧
    (b.buf.length = b.cap → ∀ i ∈ s.2, i < b.cap) := by
  rw [ModInfoBuilder.prepare_module_name] at h
  cases hst : ModInfoBuilder.prepareModuleNameStep b with
  | none => rw [hst] at h; exact Option.noConfusion h
  | some s1 =>
    rw [hst] at h
    simp only at h
    obtain rfl : ((s1.1.push_internal (ascii "firmware=")).1,
        s1.2 ++ (s1.1.push_internal (ascii "firmware=")).2) = s := Option.some.inj h
    have hs1 := prepareModuleNameStep_spec b s1 hst
    have hpi := push_internal_spec s1.1 (ascii "firmware=")
    refine ⟨hpi.1.trans hs1.1, hpi.2.1.trans hs1.2.1, ?_, hpi.2.2.2.trans hs1.2.2.2.1, ?_⟩
    · rw [hpi.2.2.1, hs1.2.2.1]
      show b.n + _ + List.length (ascii "firmware=") = _
      have : List.length (ascii "firmware=") = 9 := rfl
      rw [this]
      omega
    · intro hbl i hi
      simp only [List.mem_append] at hi
      rcases hi with hi | hi
      · exact hs1.2.2.2.2 hbl i hi
      · have := push_internal_writes s1.1 (ascii "firmware=") i hi
        rwa [hs1.1] at this

/-- On success, `prepare` preserves capacity, module name and buffer
length, advances the counter by its `opLen`, and only writes in
bounds. -/
theorem prepare_spec (b : ModInfoBuilder) (s : ModInfoBuilder × List Nat)
    (h : b.prepare = some s) :
    s.1.cap = b.cap ∧ s.1.module_name = b.module_name ∧
    s.1.n = b.n + opLen b.module_name .prepare ∧
    s.1.buf.length = b.buf.length ∧
    (b.buf.length = b.cap → ∀ i ∈ s.2, i < b.cap) := by
  rw [ModInfoBuilder.prepare] at h
  cases hpm : (b.push_internal [0]).1.prepare_module_name with
  | none => rw [hpm] at h; exact Option.noConfusion h
  | some s2 =>
    rw [hpm] at h
    simp only at h
    obtain rfl : (s2.1, (b.push_internal [0]).2 ++ s2.2) = s := Option.some.inj h
    have hpi := push_internal_spec b [0]
    have hs2 := prepare_module_name_spec (b.push_internal [0]).1 s2 hpm
    refine ⟨hs2.1.trans hpi.1, hs2.2.1.trans hpi.2.1, ?_, hs2.2.2.2.1.trans hpi.2.2.2, ?_⟩
    · rw [hs2.2.2.1, hpi.2.2.1, hpi.2.1, opLen]
      simp only [List.length_singleton]
      omega
    · intro hbl i hi
      simp only [List.mem_append] at hi
      rcases hi with hi | hi
      · exact push_internal_writes b [0] i hi
      · have := hs2.2.2.2.2 (by rw [hpi.2.2.2, hpi.1]; exact hbl) i hi
        rwa [hpi.1] at this

/-- One public operation, on success: capacity, module name and buffer
length are preserved, the counter advances by the operation's `opLen`,
and every write is in bounds. -/
theorem applyOp_spec (b : ModInfoBuilder) (op : Op) (s : ModInfoBuilder × List Nat)
    (h : applyOp b op = some s) :
    s.1.cap = b.cap ∧ s.1.module_name = b.module_name ∧
    s.1.n = b.n + opLen b.module_name op ∧
    s.1.buf.length = b.buf.length ∧
    (b.buf.length = b.cap → ∀ i ∈ s.2, i < b.cap) := by
  cases op with
  | prepare => exact prepare_spec b s h
  | push bytes =>
    rw [applyOp, ModInfoBuilder.push] at h
    by_cases hg : b.cap ≠ 0 ∧ b.n = 0
    · rw [if_pos hg] at h; exact Option.noConfusion h
    · rw [if_neg hg] at h
      obtain rfl : b.push_internal bytes = s := Option.some.inj h
      have hpi := push_internal_spec b bytes
      exact ⟨hpi.1, hpi.2.1, hpi.2.2.1, hpi.2.2.2,
        fun _ => push_internal_writes b bytes⟩

/-- With capacity 0 (the sizing pass) every operation succeeds: the
push guard only fires for a non-zero capacity, and the module-name
separator swap is skipped. -/
theorem applyOp_cap0 (b : ModInfoBuilder) (op : Op) (h : b.cap = 0) :
    ∃ s, applyOp b op = some s := by
  cases op with
  | push bytes =>
    refine ⟨b.push_internal bytes, ?_⟩
    rw [applyOp, ModInfoBuilder.push, if_neg (by simp [h])]
  | prepare =>
    rw [applyOp, ModInfoBuilder.prepare]
    have hcap : ((b.push_internal [0]).1).cap = 0 := (push_internal_spec b [0]).1.trans h
    have hstep : ∃ s1, ModInfoBuilder.prepareModuleNameStep (b.push_internal [0]).1 = some s1 := by
      rw [ModInfoBuilder.prepareModuleNameStep]
      by_cases hm : ((b.push_internal [0]).1).module_name.isEmpty
      · exact ⟨_, by rw [if_pos hm]⟩
      · rw [if_neg hm]
        simp only
        rw [if_neg (by simp [(push_internal_spec _ _).1, hcap, h])]
        exact ⟨_, rfl⟩
    obtain ⟨s1, hs1⟩ := hstep
    rw [ModInfoBuilder.prepare_module_name, hs1]
    exact ⟨_, rfl⟩

/-- Running an operation sequence, on success: capacity and module name
are preserved, the buffer length is preserved, the final counter is the
initial counter plus the sequence's total `opsLen`, and every logged
write is in bounds. -/
theorem runFrom_spec :
    ∀ (ops : List Op) (b : ModInfoBuilder) (s : ModInfoBuilder × List Nat),
      runFrom b ops = some s →
      s.1.cap = b.cap ∧ s.1.module_name = b.module_name ∧
      s.1.n = b.n + opsLen b.module_name ops ∧
      s.1.buf.length = b.buf.length ∧
      (b.buf.length = b.cap → ∀ i ∈ s.2, i < b.cap) := by
  intro ops
  induction ops with
  | nil =>
    intro b s h
    obtain rfl : (b, ([] : List Nat)) = s := Option.some.inj h
    exact ⟨rfl, rfl, by simp [opsLen], rfl, fun _ i hi => absurd hi (by simp)⟩
  | cons op ops ih =>
    intro b s h
    rw [runFrom] at h
    cases hop : applyOp b op with
    | none => rw [hop] at h; exact Option.noConfusion h
    | some s1 =>
      rw [hop] at h
      simp only at h
      cases hrun : runFrom s1.1 ops with
      | none => rw [hrun] at h; exact Option.noConfusion h
      | some s2 =>
        rw [hrun] at h
        obtain rfl : (s2.1, s1.2 ++ s2.2) = s := Option.some.inj h
        have h1 := applyOp_spec b op s1 hop
        have h2 := ih s1.1 s2 hrun
        refine ⟨h2.1.trans h1.1, h2.2.1.trans h1.2.1, ?_, h2.2.2.2.1.trans h1.2.2.2.1, ?_⟩
        · rw [h2.2.2.1, h1.2.2.1, h1.2.1, opsLen, opsLen, List.map_cons, List.sum_cons]
          omega
        · intro hbl i hi
          simp only [List.mem_append] at hi
          rcases hi with hi | hi
          · exact h1.2.2.2.2 hbl i hi
          · have := h2.2.2.2.2 (by rw [h1.2.2.2.1, h1.1]; exact hbl) i hi
            rwa [h1.1] at this

/-- The sizing pass (capacity 0) always runs to completion. -/
theorem runFrom_cap0 :
    ∀ (ops : List Op) (b : ModInfoBuilder), b.cap = 0 →
      ∃ s, runFrom b ops = some s := by
  intro ops
  induction ops with
  | nil => intro b _; exact ⟨(b, []), rfl⟩
  | cons op ops ih =>
    intro b hb
    obtain ⟨s1, hs1⟩ := applyOp_cap0 b op hb
    obtain ⟨s2, hs2⟩ := ih s1.1 ((applyOp_spec b op s1 hs1).1.trans hb)
    refine ⟨(s2.1, s1.2 ++ s2.2), ?_⟩
    rw [runFrom, hs1]
    simp only
    rw [hs2]

/-- C5 witness: on the trace 1,5,2,7,9,7 the first window is torn (high
reads 1 then 2, forcing a retry) and the returned value comes from the
second, consistent window 7,9,7. -/
theorem timer_read_consistent_window_witness :
    ∃ k h l rest,
      ([1, 5, 2, 7, 9, 7] : List Nat).drop (3 * k) = h :: l :: h :: rest ∧
      fromU32s 7 9 = fromU32s h l ∧
      ∀ j, j < k →
        ∃ a b c r, ([1, 5, 2, 7, 9, 7] : List Nat).drop (3 * j) = a :: b :: c :: r ∧ a ≠ c :=
  timer_read_consistent_window [1, 5, 2, 7, 9, 7] (fromU32s 7 9) rfl

/-- C3: running the same prepare/push operation sequence once as the
sizing pass (capacity 0, counter only) and once as a building pass with
any capacity yields equal final counters, so the building pass's
occupied length after the final terminator added by `build` equals the
sizing pass's `build_length` (final counter plus one). -/
theorem sizing_building_length_agree (cap : Nat) (module_name : List Nat)
    (ops : List Op) (st st0 : ModInfoBuilder × List Nat)
    (h : runOps cap module_name ops = some st)
    (h0 : runOps 0 module_name ops = some st0) :
    st.1.n = st0.1.n ∧
    ((st.1.push_internal [0]).1).n = st0.1.build_length := by
  have hs := runFrom_spec ops _ _ h
  have hs0 := runFrom_spec ops _ _ h0
  have hn : st.1.n = st0.1.n := by
    rw [hs.2.2.1, hs0.2.2.1]
    rfl
  refine ⟨hn, ?_⟩
  rw [(push_internal_spec st.1 [0]).2.2.1, ModInfoBuilder.build_length, hn]
  simp

/-- C3 witness: the single-prepare sequence with module name "x" sizes
to 12; building it at capacity 13 reaches the same counter 12, and the
occupied length after the final terminator equals the sizing pass's
`build_length`. -/
theorem sizing_building_length_agree_witness :
    (12 : Nat) = 12 ∧
    ((ModInfoBuilder.mk 13 [0, 120, 46, 102, 105, 114, 109, 119, 97, 114, 101, 61, 0]
        12 (ascii "x")).push_internal [0]).1.n =
      (ModInfoBuilder.mk 0 [] 12 (ascii "x")).build_length :=
  sizing_building_length_agree 13 (ascii "x") [Op.prepare]
    (⟨13, [0, 120, 46, 102, 105, 114, 109, 119, 97, 114, 101, 61, 0], 12, ascii "x"⟩,
      [0, 1, 2, 2, 3, 4, 5, 6, 7, 8, 9, 10, 11])
    (⟨0, [], 12, ascii "x"⟩, []) rfl rfl

/-- C4: for any capacity and any operation sequence that runs to
completion, `build` returns the buffer exactly when the occupied length
after the final terminator equals the declared capacity; any mismatch
(too long or too short) yields no buffer at all (a `build_error`). -/
theorem build_exact_capacity_iff (cap : Nat) (module_name : List Nat)
    (ops : List Op) (st : ModInfoBuilder × List Nat)
    (h : runOps cap module_name ops = some st) :
    (∃ buf, st.1.build = some buf) ↔ st.1.n + 1 = cap := by
  have hs := runFrom_spec ops _ _ h
  have hcap : st.1.cap = cap := hs.1
  have hn : ((st.1.push_internal [0]).1).n = st.1.n + 1 := by
    rw [(push_internal_spec st.1 [0]).2.2.1]; rfl
  have hc : ((st.1.push_internal [0]).1).cap = cap :=
    (push_internal_spec st.1 [0]).1.trans hcap
  constructor
  · rintro ⟨buf, hbuf⟩
    rw [ModInfoBuilder.build] at hbuf
    by_cases hif : ((st.1.push_internal [0]).1).n = ((st.1.push_internal [0]).1).cap
    · rw [← hn, ← hc]; exact hif
    · rw [if_neg hif] at hbuf
      exact Option.noConfusion hbuf
  · intro hif
    refine ⟨((st.1.push_internal [0]).1).buf, ?_⟩
    rw [ModInfoBuilder.build]
    rw [if_pos (by rw [hn, hc]; exact hif)]

/-- C4 witness: the single-prepare manifest for module name "x" occupies
12 bytes, and `build` succeeds at the exact capacity 13 = 12 + 1. -/
theorem build_exact_capacity_iff_witness :
    (∃ buf, (ModInfoBuilder.mk 13 [0, 120, 46, 102, 105, 114, 109, 119, 97, 114, 101, 61, 0]
        12 (ascii "x")).build = some buf) ↔ (12 : Nat) + 1 = 13 :=
  build_exact_capacity_iff 13 (ascii "x") [Op.prepare]
    (⟨13, [0, 120, 46, 102, 105, 114, 109, 119, 97, 114, 101, 61, 0], 12, ascii "x"⟩,
      [0, 1, 2, 2, 3, 4, 5, 6, 7, 8, 9, 10, 11]) rfl

/-- C10 counterexample: at capacity 1 with module name "x", the single
operation `prepare` makes the unguarded separator assignment of
`prepare_module_name` target index `n - 1 = 1`, outside the one-byte
buffer: the const evaluation fails (modelled as `none`), so the builder
functions are not total when the pushed content overflows the declared
capacity. -/
theorem builder_oob_write_counterexample :
    runOps 1 (ascii "x") [Op.prepare] = none := by
  decide

/-- C10 (amended): every buffer write a completed builder run actually
performs is at an index strictly below the declared capacity
(`push_internal` counts overflowing bytes without writing them, and a
successful separator swap is in bounds); however, the separator swap of
`prepare_module_name` indexes the buffer unconditionally at `n - 1`,
and when the module name does not fit in the capacity that index is out
of bounds and the const evaluation fails rather than skipping the
write. -/
theorem builder_writes_in_bounds (cap : Nat) (module_name : List Nat)
    (ops : List Op) (st : ModInfoBuilder × List Nat)
    (h : runOps cap module_name ops = some st) :
    ∀ i ∈ st.2, i < cap := by
  have hs := runFrom_spec ops _ _ h
  exact hs.2.2.2.2 (by simp [ModInfoBuilder.new])

/-- C10 witness: building the single-prepare sequence at capacity 3
logs the write indices 0, 1, 2, 2; the index 2 (the separator swap) is
below the capacity 3. -/
theorem builder_writes_in_bounds_witness : (2 : Nat) < 3 :=
  builder_writes_in_bounds 3 (ascii "x") [Op.prepare]
    (⟨3, [0, 120, 46], 12, ascii "x"⟩, [0, 1, 2, 2]) rfl 2 (by decide)

end Nova
